import Mathlib

/-!
Verification development for the stem-separation cache of the audio-remix
repository (app.py, clases.py, procesamiento_audio.py, cache_manager.py).

Shallow embedding conventions:
* Filesystem paths are lists of components (`Path`); `os.path.join a b` with a
  single component `b` is `a ++ [b]`.
* The filesystem is a finite association list from paths to `FileInfo`
  (byte size plus an abstract content digest standing for the SHA-256 hash
  computed by `compute_file_hash`), together with a list of existing
  directories.
* The external separation engine (Demucs, invoked through `subprocess`) is a
  parameter: a function from the pre-invocation filesystem and the command
  arguments to an exit code and the set of artifact files it wrote into the
  per-song output directory.
* Every operation returns, alongside its result, the updated state and the
  number of engine invocations it performed, so that claims about
  "zero engine invocations" or "exactly one invocation" are statable.
-/

namespace Remix

/-! ### Definitions: the shallow embedding of the program -/

/-- A filesystem path, as a list of components. -/
abbrev Path := List String

/-- Content of a regular file: its byte size and an abstract content digest.
The digest models the SHA-256 value returned by
`compute_file_hash` (procesamiento_audio.py): equal bytes give equal digests,
and we treat the digest as the content identity. -/
structure FileInfo where
  size : Nat
  digest : Nat
deriving DecidableEq, Repr

/-- The filesystem state: regular files with their info, and directories. -/
structure Fs where
  files : List (Path × FileInfo)
  dirs : List Path
deriving DecidableEq, Repr

/-- Look up a regular file. -/
def Fs.lookup (fs : Fs) (p : Path) : Option FileInfo :=
  (fs.files.find? (fun e => e.1 = p)).map (fun e => e.2)

/-- Embedding of `os.path.exists` restricted to regular files. -/
def Fs.existsFile (fs : Fs) (p : Path) : Bool :=
  (fs.lookup p).isSome

/-- Embedding of `os.path.getsize` (0 for a missing file; the code only calls it on
files that exist). -/
def Fs.getsize (fs : Fs) (p : Path) : Nat :=
  ((fs.lookup p).map (fun i => i.size)).getD 0

/-- Embedding of `compute_file_hash` (procesamiento_audio.py): the SHA-256 content digest
of the file, modelled by the `digest` field of its content. -/
def Fs.fileHash (fs : Fs) (p : Path) : Nat :=
  ((fs.lookup p).map (fun i => i.digest)).getD 0

/-- Embedding of `os.path.exists` / `os.path.isdir` for directories. -/
def Fs.existsDir (fs : Fs) (p : Path) : Bool :=
  fs.dirs.contains p

/-- Write (create or overwrite) a regular file. -/
def Fs.writeFile (fs : Fs) (p : Path) (i : FileInfo) : Fs :=
  { fs with files := fs.files.filter (fun e => ¬ e.1 = p) ++ [(p, i)] }

/-- Embedding of `os.path.basename`: the last path component. -/
def basename (p : Path) : String :=
  (p.getLast?).getD ""

/-- ASCII lowercasing of one character (`str.lower` on the ASCII names the
routes handle). -/
def asciiLower (c : Char) : Char :=
  if 65 ≤ c.toNat ∧ c.toNat ≤ 90 then Char.ofNat (c.toNat + 32) else c

/-- Embedding of `str.lower`. -/
def strToLower (s : String) : String :=
  String.mk (s.data.map asciiLower)

/-- Embedding of `str.endswith`. -/
def strEndsWith (s suffix : String) : Bool :=
  suffix.data.isSuffixOf s.data

/-- Embedding of `os.path.splitext(...)[0]`: the name with everything from its last dot
removed, unchanged when it has no dot. (The `splitext` special case for
names consisting only of a leading dot does not arise: the routes only pass
names ending in a real extension.) -/
def stripExt (s : String) : String :=
  match s.data.reverse.dropWhile (fun c => ¬ c = ('.' : Char)) with
  | [] => s
  | _ :: beforeDot => String.mk beforeDot.reverse

/-- Embedding of `UPLOAD_FOLDER` of app.py. -/
def uploadFolder : Path := ["uploads"]

/-- Embedding of `OUTPUT_FOLDER` of app.py. -/
def outputFolder : Path := ["outputs_remix"]

/-- The stem names Demucs is expected to produce
(`expected_stems` in procesamiento_audio.py). -/
def expectedStems : List String := ["vocals", "drums", "bass", "other"]

/-- Embedding of `demucs_output_dir` (procesamiento_audio.py line 123):
`out_dir/htdemucs/<song name>`. -/
def demucsOutputDir (outDir : Path) (songName : String) : Path :=
  outDir ++ ["htdemucs", songName]

/-- The path of one expected stem artifact:
`demucs_output_dir/<stem>.wav`. -/
def stemPath (outDir : Path) (songName stem : String) : Path :=
  demucsOutputDir outDir songName ++ [stem ++ (".wav")]

/-- Reason tag attached to a failing entry by `validate_stems_integrity`:
the code appends `"<name> (not found)"` for a missing file and
`"<name> (empty, <n> bytes)"` for an undersized one. -/
inductive StemProblem where
  | notFound : StemProblem
  | undersized (bytes : Nat) : StemProblem
deriving DecidableEq, Repr

/-- Embedding of `validate_stems_integrity` (procesamiento_audio.py lines 62-81):
iterates over the mapping in order, collecting a problem entry for every
path that does not exist or whose size is below 1000 bytes; the mapping is
valid iff the collected list is empty. -/
def validateStemsIntegrity (fs : Fs) (stems : List (String × Path)) :
    Bool × List (String × StemProblem) :=
  let missing := stems.foldl
    (fun acc e =>
      if ¬ fs.existsFile e.2 then acc ++ [(e.1, StemProblem.notFound)]
      else if fs.getsize e.2 < 1000 then
        acc ++ [(e.1, StemProblem.undersized (fs.getsize e.2))]
      else acc)
    []
  (missing.isEmpty, missing)

/-- One integrity check of a single entry, as performed inside the loop of
`validate_stems_integrity`: `none` when the entry is fine, `some` problem
otherwise. -/
def stemProblemOf (fs : Fs) (e : String × Path) : Option (String × StemProblem) :=
  if ¬ fs.existsFile e.2 then some (e.1, StemProblem.notFound)
  else if fs.getsize e.2 < 1000 then some (e.1, StemProblem.undersized (fs.getsize e.2))
  else none

/-- Embedding of `Pista` (clases.py): a single stem record — its name and the path of its
artifact file. (`duracion_seg` and `metadatos` play no role in the claims.) -/
structure Pista where
  nombre : String
  archivo_ruta : Path
deriving DecidableEq, Repr

/-- Embedding of `Cancion` (clases.py), with the content-identity field.
The `hash` attribute is — Modelled from the spec: app.py constructs
`Cancion(filename, filepath, "audio", file_hash)` and clases.py as present in
the repository snapshot lacks the hash parameter; the spec describes a Song
as carrying its content identity (the SHA-256 digest of its bytes), so we
record it here as `hash`. -/
structure Cancion where
  titulo : String
  archivo_ruta : Path
  hash : Nat
  pistas : List Pista
deriving DecidableEq, Repr

/-- Embedding of `ProyectoAudio.encontrar_cancion_por_archivo` (clases.py lines 115-120):
returns the first registered song whose source file basename equals the given
filename. -/
def encontrarCancionPorArchivo (canciones : List Cancion) (filename : String) :
    Option Cancion :=
  canciones.find? (fun c => basename c.archivo_ruta = filename)

/-- Embedding of `ProyectoAudio.encontrar_cancion_por_hash` — Modelled from the spec:
app.py calls this method but it is absent from clases.py in the repository
snapshot; the spec's `find_by_identity(identity)` returns the unique Song
with that content identity or none. -/
def encontrarCancionPorHash (canciones : List Cancion) (h : Nat) :
    Option Cancion :=
  canciones.find? (fun c => c.hash = h)

/-- Embedding of `ProyectoAudio.agregar_cancion` (clases.py lines 104-113): after an
`isinstance` check (static typing in this embedding), the song is appended
unconditionally. -/
def agregarCancion (canciones : List Cancion) (c : Cancion) : List Cancion :=
  canciones ++ [c]

/-- Python `dict` insertion: overwrite the value if the key is present
(keeping its position), else append. Used to model dict comprehensions such
as `{p.nombre: p.archivo_ruta for p in cancion.pistas}`. -/
def insertDict {α : Type} (acc : List (String × α)) (k : String) (v : α) :
    List (String × α) :=
  if acc.any (fun e => e.1 = k) then
    acc.map (fun e => if e.1 = k then (k, v) else e)
  else acc ++ [(k, v)]

/-- Embedding of `{p.nombre: p.archivo_ruta for p in pistas}` (app.py lines 114 and 263). -/
def stemsDictOf (pistas : List Pista) : List (String × Path) :=
  pistas.foldl (fun acc p => insertDict acc p.nombre p.archivo_ruta) []

/-- Result of one invocation of the external Demucs process: its exit code,
whether it created the per-song output directory, and the artifact files
(name and byte size) it wrote into that directory. -/
structure EngineOut where
  exitCode : Nat
  dirCreated : Bool
  produced : List (String × Nat)
deriving DecidableEq, Repr

/-- The external separation engine, as a parameter: given the filesystem at
invocation time, the input audio path and the output root, it yields an
`EngineOut`. -/
abbrev Engine := Fs → Path → Path → EngineOut

/-- Effect of an engine invocation on the filesystem: its produced artifacts
are written under the per-song directory, and the directory is created when
the engine reports it. -/
def applyEngine (fs : Fs) (dDir : Path) (out : EngineOut) : Fs :=
  let fs1 := out.produced.foldl
    (fun a e => a.writeFile (dDir ++ [e.1]) { size := e.2, digest := 0 }) fs
  if out.dirCreated then
    { fs1 with dirs := if fs1.dirs.contains dDir then fs1.dirs else fs1.dirs ++ [dDir] }
  else fs1

/-- The exceptions `separate_stems` can raise. -/
inductive SepErr where
  | inputNotFound : SepErr
  | engineFailed (code : Nat) : SepErr
  | noOutputDir : SepErr
  | allStemsEmpty : SepErr
deriving DecidableEq, Repr

/-- Embedding of `song_name = os.path.splitext(os.path.basename(input_audio))[0]`
(procesamiento_audio.py line 122). -/
def songNameOf (input : Path) : String :=
  stripExt (basename input)

/-- The filesystem-level cache check of `separate_stems`
(procesamiento_audio.py lines 126-144): all four expected stems are present
under the per-song directory with size above 1000 bytes. -/
def allStemsCached (fs : Fs) (outDir : Path) (songName : String) : Bool :=
  fs.existsDir (demucsOutputDir outDir songName) &&
    expectedStems.all (fun s =>
      fs.existsFile (stemPath outDir songName s) &&
        1000 < fs.getsize (stemPath outDir songName s))

/-- The per-artifact validation applied to each freshly produced stem
(procesamiento_audio.py lines 200-216): the file exists and its size is not
below 1000 bytes. -/
def stemSurvives (fs2 : Fs) (outDir : Path) (songName s : String) : Bool :=
  fs2.existsFile (stemPath outDir songName s) &&
    1000 ≤ fs2.getsize (stemPath outDir songName s)

/-- The stems dictionary built after a fresh engine run
(procesamiento_audio.py lines 200-216): each expected stem is kept
individually iff its artifact survives the size check. -/
def survivors (fs2 : Fs) (outDir : Path) (songName : String) :
    List (String × Path) :=
  expectedStems.filterMap (fun s =>
    if stemSurvives fs2 outDir songName s = true then
      some (s, stemPath outDir songName s)
    else none)

/-- Embedding of `separate_stems` (procesamiento_audio.py lines 97-236).
Returns the stems mapping (or the raised error), the filesystem after the
call, and the number of engine invocations performed.
* missing input file → `FileNotFoundError`;
* all four expected artifacts already on disk above 1000 bytes → returned
  as a cache hit with no engine invocation;
* otherwise Demucs runs once: nonzero exit raises, a missing per-song
  output directory raises, produced artifacts are kept individually when
  they exist with size at least 1000 bytes, and if none survives it
  raises. -/
def separateStems (engine : Engine) (fs : Fs) (input outDir : Path) :
    Except SepErr (List (String × Path)) × Fs × Nat :=
  if ¬ fs.existsFile input then (Except.error SepErr.inputNotFound, fs, 0)
  else
    let songName := songNameOf input
    if allStemsCached fs outDir songName then
      (Except.ok (expectedStems.map (fun s => (s, stemPath outDir songName s))),
        fs, 0)
    else
      let out := engine fs input outDir
      let fs2 := applyEngine fs (demucsOutputDir outDir songName) out
      if out.exitCode ≠ 0 then
        (Except.error (SepErr.engineFailed out.exitCode), fs2, 1)
      else if ¬ fs2.existsDir (demucsOutputDir outDir songName) then
        (Except.error SepErr.noOutputDir, fs2, 1)
      else
        let stems := survivors fs2 outDir songName
        if stems.isEmpty then (Except.error SepErr.allStemsEmpty, fs2, 1)
        else (Except.ok stems, fs2, 1)

/-- In-memory server state relevant to `/separar`: the registered songs of
the global `proyecto` and the filesystem. -/
structure AppState where
  canciones : List Cancion
  fs : Fs
deriving DecidableEq, Repr

/-- The responses `/separar` can produce. `cacheHit` carries the public stem
mapping of a valid cached set; `separated` the mapping of a fresh
separation. -/
inductive SepResp where
  | formatUnsupported : SepResp
  | fileNotFound : SepResp
  | emptyFile : SepResp
  | notRegistered : SepResp
  | serverError (e : SepErr) : SepResp
  | allInvalid : SepResp
  | cacheHit (pistas : List (String × Path)) : SepResp
  | separated (pistas : List (String × Path)) : SepResp
deriving DecidableEq, Repr

/-- Embedding of `os.path.relpath(p, OUTPUT_FOLDER)` re-prefixed with `outputs_remix/`
(app.py lines 272-274 and 322-326); artifact paths always live under the
output folder, whose single component is dropped. -/
def publicPath (p : Path) : Path :=
  "outputs_remix" :: p.drop 1

/-- Replace the stem list of the first registered song whose basename matches
`filename` (the Python code mutates the `Cancion` object found by
`encontrar_cancion_por_archivo`). -/
def setPistas (canciones : List Cancion) (filename : String) (ps : List Pista) :
    List Cancion :=
  match canciones with
  | [] => []
  | c :: rest =>
    if basename c.archivo_ruta = filename then { c with pistas := ps } :: rest
    else c :: setPistas rest filename ps

/-- The cache-miss tail of `/separar` (app.py lines 287-332): run
`separate_stems`, keep the artifacts that exist with size above 1000 bytes,
store them as the song's new stem list and answer with their public paths. -/
def runSeparation (engine : Engine) (st : AppState) (nombre : String)
    (ruta : Path) : SepResp × AppState × Nat :=
  let r := separateStems engine st.fs ruta outputFolder
  match r.1 with
  | Except.error e => (SepResp.serverError e, { st with fs := r.2.1 }, r.2.2)
  | Except.ok stems =>
    let fs2 := r.2.1
    let validos := stems.filter (fun e =>
      fs2.existsFile e.2 && 1000 < fs2.getsize e.2)
    if validos.isEmpty then (SepResp.allInvalid, { st with fs := fs2 }, r.2.2)
    else
      let nuevas := validos.map (fun e => Pista.mk e.1 e.2)
      let publicas := validos.foldl
        (fun acc e => insertDict acc e.1 (publicPath e.2)) []
      (SepResp.separated publicas,
        { canciones := setPistas st.canciones nombre nuevas, fs := fs2 },
        r.2.2)

/-- Embedding of `.mp3` / `.wav` extension check of app.py line 233:
`nombre.lower().endswith((".mp3", ".wav"))`. -/
def formatoSoportado (nombre : String) : Bool :=
  strEndsWith (strToLower nombre) (".mp3") ||
    strEndsWith (strToLower nombre) (".wav")

/-- The `/separar` request handler (app.py lines 217-341), for a request
naming `nombre`. Returns the response, the state after the call, and the
number of separation-engine invocations performed. -/
def separar (engine : Engine) (st : AppState) (nombre : String) :
    SepResp × AppState × Nat :=
  if ¬ formatoSoportado nombre then (SepResp.formatUnsupported, st, 0)
  else
    let ruta := uploadFolder ++ [nombre]
    if ¬ st.fs.existsFile ruta then (SepResp.fileNotFound, st, 0)
    else if st.fs.getsize ruta = 0 then (SepResp.emptyFile, st, 0)
    else
      match encontrarCancionPorArchivo st.canciones nombre with
      | none => (SepResp.notRegistered, st, 0)
      | some c =>
        if c.pistas.isEmpty then runSeparation engine st nombre ruta
        else if (validateStemsIntegrity st.fs (stemsDictOf c.pistas)).1 then
          let publicas := c.pistas.foldl
            (fun acc p => insertDict acc p.nombre (publicPath p.archivo_ruta)) []
          (SepResp.cacheHit publicas, st, 0)
        else
          runSeparation engine { st with canciones := setPistas st.canciones nombre [] }
            nombre ruta

/-- Responses of `/upload` relevant to the claims: recognition of known
content (with the restored stem mapping) versus registration of new
content. -/
inductive UploadResp where
  | restored (stems : List (String × Path)) : UploadResp
  | nuevo : UploadResp
deriving DecidableEq, Repr

/-- Replace the first registered song with the given content identity (the
Python code mutates the `Cancion` object found by
`encontrar_cancion_por_hash`). -/
def replaceByHash (canciones : List Cancion) (h : Nat) (c' : Cancion) :
    List Cancion :=
  match canciones with
  | [] => []
  | c :: rest =>
    if c.hash = h then c' :: rest else c :: replaceByHash rest h c'

/-- Deduplication of stem records by name, first occurrence wins
(app.py lines 122-130). -/
def dedupByNombre : List Pista → List String → List Pista
  | [], _ => []
  | p :: rest, seen =>
    if seen.contains p.nombre then dedupByNombre rest seen
    else p :: dedupByNombre rest (seen ++ [p.nombre])

/-- Embedding of `upload_file` (app.py lines 75-186): save the uploaded bytes, compute
their content digest, and either restore the already-registered song with
that identity (updating its source path if the original file is gone,
dropping duplicate-named stem records, and reporting its stems when they
pass integrity validation) or register a new song. The identity lookup is —
Modelled from the spec: see `encontrarCancionPorHash`. -/
def uploadFile (st : AppState) (filename : String) (content : FileInfo) :
    UploadResp × AppState :=
  let filepath := uploadFolder ++ [filename]
  let fs1 := st.fs.writeFile filepath content
  let fileHash := content.digest
  match encontrarCancionPorHash st.canciones fileHash with
  | some c =>
    let c1 := if ¬ fs1.existsFile c.archivo_ruta then
        { c with archivo_ruta := filepath } else c
    if ¬ (validateStemsIntegrity fs1 (stemsDictOf c1.pistas)).1 then
      (UploadResp.restored [],
        { canciones := replaceByHash st.canciones fileHash c1, fs := fs1 })
    else
      let unicas := dedupByNombre c1.pistas []
      let c2 := { c1 with pistas := unicas }
      (UploadResp.restored
          (unicas.map (fun p => (p.nombre, publicPath p.archivo_ruta))),
        { canciones := replaceByHash st.canciones fileHash c2, fs := fs1 })
  | none =>
    let nueva : Cancion :=
      { titulo := filename, archivo_ruta := filepath, hash := fileHash,
        pistas := [] }
    (UploadResp.nuevo,
      { canciones := agregarCancion st.canciones nueva, fs := fs1 })

/-- The ledger invariant claimed by the spec: no two registered songs share
a content identity. -/
def identUnique (canciones : List Cancion) : Prop :=
  List.Pairwise (fun a b => a.hash ≠ b.hash) canciones

/-- A persisted stem record as read back from the JSON store; `none` fields
model missing keys. -/
structure PistaRec where
  nombre : Option String
  archivo_ruta : Option Path
deriving DecidableEq, Repr

/-- A persisted song record as read back from the JSON store; `none` fields
model missing keys. (Fields such as `formato`, `tamanio_bytes` and
`hora_subida` are read with defaults or only copied, so they are omitted
here; the persisted records of clases.py carry no content identity, so
reconstruction below uses digest 0.) -/
structure SongRec where
  titulo : Option String
  archivo_ruta : Option Path
  pistas : List PistaRec
deriving DecidableEq, Repr

/-- Reconstruction of one stem record
(clases.py lines 161-164): a missing `nombre` or `archivo_ruta` key raises
inside the per-song `try`. -/
def parsePistaRec (r : PistaRec) : Option Pista :=
  match r.nombre, r.archivo_ruta with
  | some n, some a => some { nombre := n, archivo_ruta := a }
  | _, _ => none

/-- Reconstruction of one song record (clases.py lines 153-167): a missing
`titulo` or `archivo_ruta` key, or a failing stem record, raises inside the
per-song `try`, which the loop catches — the record is skipped and logged. -/
def parseSongRec (r : SongRec) : Option Cancion :=
  match r.titulo, r.archivo_ruta, r.pistas.mapM parsePistaRec with
  | some t, some a, some ps =>
    some { titulo := t, archivo_ruta := a, hash := 0, pistas := ps }
  | _, _, _ => none

/-- The distinguished signal of `cargar_estado`: the `ValueError` raised on
a missing or empty store, which app.py (lines 29-34) catches separately from
real errors and treats as "start with an empty project". -/
inductive LoadSignal where
  | noSavedState : LoadSignal
deriving DecidableEq, Repr

/-- Embedding of `ProyectoAudio.cargar_estado` (clases.py lines 144-169). The read of the
store is — Modelled from the spec: `GestorArchivos.leer_json` is not part of
the repository snapshot; per the spec the durable store "must tolerate
absence (first run)", so a missing file yields no data (`none`), which the
`if not data` check of `cargar_estado` folds together with an empty list.
Each present record is reconstructed inside a `try` whose failure skips just
that record. -/
def cargarEstado (store : Option (List SongRec)) :
    Except LoadSignal (List Cancion) :=
  match store with
  | none => Except.error LoadSignal.noSavedState
  | some data =>
    if data.isEmpty then Except.error LoadSignal.noSavedState
    else Except.ok (data.filterMap parseSongRec)

/-- Embedding of `CacheManager.get_referenced_stems` helper: collect the artifact paths of
one song's stem records, aborting (second component `true`) when a record
lacks the `archivo_ruta` key — the `KeyError` is caught around the whole
loop, which then returns what was accumulated so far. -/
def refsOfPistas : List PistaRec → List Path → List Path × Bool
  | [], acc => (acc, false)
  | p :: rest, acc =>
    match p.archivo_ruta with
    | some r => refsOfPistas rest (acc ++ [r])
    | none => (acc, true)

/-- Loop of `CacheManager.get_referenced_stems` (cache_manager.py lines
46-63) over the song records. -/
def refsAux : List SongRec → List Path → List Path
  | [], acc => acc
  | s :: rest, acc =>
    let r := refsOfPistas s.pistas acc
    if r.2 then r.1 else refsAux rest r.1

/-- Embedding of `CacheManager.get_referenced_stems`: every artifact path referenced by a
stem record of the persisted ledger (stopping early on a malformed record,
whose exception is caught). -/
def getReferencedStems (estado : List SongRec) : List Path :=
  refsAux estado []

/-- Embedding of `CacheManager.list_all_stem_files` (cache_manager.py lines 29-44): all
`.wav` files lying in a per-song subdirectory of `<output root>/htdemucs`;
the empty list when the `htdemucs` directory does not exist. -/
def listAllStemFiles (root : Path) (fs : Fs) : List Path :=
  let ht := root ++ ["htdemucs"]
  if ¬ fs.existsDir ht then []
  else
    let songDirs := fs.dirs.filterMap (fun d =>
      if d.length = ht.length + 1 ∧ ht.isPrefixOf d then d.getLast? else none)
    songDirs.flatMap (fun sd =>
      fs.files.filterMap (fun e =>
        if e.1.length = ht.length + 2 ∧ (ht ++ [sd]).isPrefixOf e.1 ∧
            strEndsWith (basename e.1) (".wav") = true then some e.1
        else none))

/-- Embedding of `CacheManager.find_orphaned_stems` (cache_manager.py lines 65-70):
on-disk stem files minus ledger-referenced paths (set difference). -/
def findOrphanedStems (root : Path) (fs : Fs) (estado : List SongRec) :
    List Path :=
  (listAllStemFiles root fs).filter
    (fun p => ¬ (getReferencedStems estado).contains p)

/-- Embedding of `CacheManager.cleanup_orphaned_stems` (cache_manager.py lines 72-99):
delete every orphaned file (each exists, having just been listed, so each
`os.remove` succeeds), then remove per-song directories that became empty.
Returns the deletion count, the deleted paths and the filesystem after the
call. -/
def cleanupOrphanedStems (root : Path) (fs : Fs) (estado : List SongRec) :
    Nat × List Path × Fs :=
  let orphaned := findOrphanedStems root fs estado
  let fs1 : Fs := { fs with files := fs.files.filter (fun e => ¬ orphaned.contains e.1) }
  let ht := root ++ ["htdemucs"]
  let fs2 : Fs :=
    if fs1.existsDir ht then
      { fs1 with dirs := fs1.dirs.filter (fun d =>
          ¬ (d.length = ht.length + 1 ∧ ht.isPrefixOf d ∧
            (∀ e ∈ fs1.files, ¬ (d.isPrefixOf e.1 ∧ d ≠ e.1)) ∧
            (∀ d2 ∈ fs1.dirs, ¬ (d.isPrefixOf d2 ∧ d ≠ d2)))) }
    else fs1
  (orphaned.length, orphaned, fs2)

/-- A song with content identity 7 registered under one name. -/
def c6First : Cancion :=
  { titulo := "a.mp3", archivo_ruta := ["uploads", "a.mp3"], hash := 7,
    pistas := [] }

/-- A second song with the same content identity 7 under another name. -/
def c6Second : Cancion :=
  { titulo := "b.mp3", archivo_ruta := ["uploads", "b.mp3"], hash := 7,
    pistas := [] }

/-- A well-formed persisted record. -/
def c7Good : SongRec :=
  { titulo := some "a.mp3", archivo_ruta := some ["uploads", "a.mp3"],
    pistas := [{ nombre := some "vocals",
                 archivo_ruta := some ["outputs_remix", "htdemucs", "a", "vocals.wav"] }] }

/-- A malformed persisted record (missing `titulo` key). -/
def c7Bad : SongRec :=
  { titulo := none, archivo_ruta := some ["uploads", "b.mp3"], pistas := [] }

/-- A second well-formed persisted record, after the malformed one. -/
def c7Good2 : SongRec :=
  { titulo := some "c.mp3", archivo_ruta := some ["uploads", "c.mp3"],
    pistas := [] }

/-- A concrete filesystem holding only the uploaded input file. -/
def c5Fs : Fs :=
  { files := [(["uploads", "w.mp3"], { size := 4000, digest := 50 })],
    dirs := [] }

/-- A concrete engine: exits 0 and produces three good artifacts and one
truncated (500-byte) one. -/
def c5Engine : Engine := fun _ _ _ =>
  { exitCode := 0, dirCreated := true,
    produced := [("vocals.wav", 5000), ("drums.wav", 5000),
                 ("bass.wav", 500), ("other.wav", 5000)] }

/-- Stem records of the registered song of the C1 scenario. -/
def c1Pistas : List Pista :=
  expectedStems.map (fun s =>
    { nombre := s, archivo_ruta := stemPath outputFolder "a" s })

/-- The registered song of the C1 scenario: content identity 111. -/
def c1Cancion : Cancion :=
  { titulo := "a.mp3", archivo_ruta := uploadFolder ++ ["a.mp3"], hash := 111,
    pistas := c1Pistas }

/-- The filesystem of the C1 scenario: `uploads/a.mp3` now holds bytes with
digest 222 (different content than the registered identity 111), while the
four stem artifacts of the old content are intact. -/
def c1Fs : Fs :=
  { files := (uploadFolder ++ ["a.mp3"], { size := 4000, digest := 222 }) ::
      expectedStems.map (fun s =>
        (stemPath outputFolder "a" s, { size := 5000, digest := 0 })),
    dirs := [demucsOutputDir outputFolder "a"] }

/-- The server state of the C1 scenario. -/
def c1St : AppState := { canciones := [c1Cancion], fs := c1Fs }

/-- An engine that would fail if it were ever invoked. -/
def c1Engine : Engine := fun _ _ _ =>
  { exitCode := 1, dirCreated := false, produced := [] }

/-- Stem records of the C2 scenario (all four, at their artifact paths). -/
def c2Pistas : List Pista :=
  expectedStems.map (fun s =>
    { nombre := s, archivo_ruta := stemPath outputFolder "w" s })

/-- The registered song of the C2 scenario. -/
def c2Cancion : Cancion :=
  { titulo := "w.mp3", archivo_ruta := uploadFolder ++ ["w.mp3"], hash := 50,
    pistas := c2Pistas }

/-- The filesystem of the C2 scenario: the `bass` artifact is missing, the
other three are intact. -/
def c2Fs : Fs :=
  { files := (uploadFolder ++ ["w.mp3"], { size := 4000, digest := 50 }) ::
      (expectedStems.map (fun s =>
        (stemPath outputFolder "w" s,
          ({ size := 5000, digest := 0 } : FileInfo)))).filter
        (fun e => ¬ e.1 = stemPath outputFolder "w" "bass"),
    dirs := [demucsOutputDir outputFolder "w"] }

/-- The server state of the C2 scenario. -/
def c2St : AppState := { canciones := [c2Cancion], fs := c2Fs }

/-- A song registered with no recorded stems yet. -/
def c3Cancion : Cancion :=
  { titulo := "w.mp3", archivo_ruta := uploadFolder ++ ["w.mp3"], hash := 50,
    pistas := [] }

/-- Initial state of the C3 scenario: the song is registered, its upload is
on disk, no artifacts exist yet. -/
def c3St : AppState := { canciones := [c3Cancion], fs := c5Fs }

/-- The artifact paths produced by the concrete engine of the scenario
(`bass` is dropped as undersized). -/
def c3P : List (String × Path) :=
  [("vocals", ["outputs_remix", "htdemucs", "w", "vocals.wav"]),
   ("drums", ["outputs_remix", "htdemucs", "w", "drums.wav"]),
   ("other", ["outputs_remix", "htdemucs", "w", "other.wav"])]

/-- The single persisted stem record of the C8 scenario. -/
def c8Pista : PistaRec :=
  PistaRec.mk (some "vocals")
    (some ["outputs_remix", "htdemucs", "a", "vocals.wav"])

/-- The single persisted song record of the C8 scenario. -/
def c8Song : SongRec :=
  SongRec.mk (some "a.mp3") (some ["uploads", "a.mp3"]) [c8Pista]

/-- The persisted ledger of the C8 scenario: one song referencing one stem
artifact. -/
def c8Estado : List SongRec := [c8Song]

/-- The filesystem of the C8 scenario: the referenced stem, two orphaned
stems (one in another song directory), and a final mix at the output root. -/
def c8Fs : Fs :=
  { files := [(["outputs_remix", "mix.wav"], { size := 9000, digest := 0 }),
      (["outputs_remix", "htdemucs", "a", "vocals.wav"],
        { size := 5000, digest := 0 }),
      (["outputs_remix", "htdemucs", "a", "drums.wav"],
        { size := 5000, digest := 0 }),
      (["outputs_remix", "htdemucs", "b", "other.wav"],
        { size := 5000, digest := 0 })],
    dirs := [["outputs_remix", "htdemucs"],
      ["outputs_remix", "htdemucs", "a"],
      ["outputs_remix", "htdemucs", "b"]] }

/-! ### Theorems -/

/-- A fold that appends an optional element at each step computes a
`filterMap`. -/
theorem foldl_append_filterMap {α β : Type} (f : α → Option β)
    (step : List β → α → List β)
    (hstep : ∀ acc e, step acc e = acc ++ (f e).toList) :
    ∀ (l : List α) (acc : List β),
      List.foldl step acc l = acc ++ l.filterMap f := by
  intro l
  induction l with
  | nil => intro acc; simp
  | cons e rest ih =>
    intro acc
    rw [List.foldl_cons, hstep, ih, List.filterMap_cons]
    cases h : f e <;> simp

theorem validateStemsIntegrity_missing_eq (fs : Fs) (stems : List (String × Path)) :
    (validateStemsIntegrity fs stems).2 = stems.filterMap (stemProblemOf fs) := by
  show List.foldl _ [] stems = _
  rw [foldl_append_filterMap (stemProblemOf fs)]
  · simp
  · intro acc e
    unfold stemProblemOf
    by_cases h1 : fs.existsFile e.2
    · by_cases h2 : fs.getsize e.2 < 1000
      · simp [h1, h2]
      · simp [h1, h2]
    · simp [h1]

/-- An entry passes the integrity check iff its file exists and its size is at
least the 1000-byte minimum. -/
theorem stemProblemOf_eq_none_iff (fs : Fs) (e : String × Path) :
    stemProblemOf fs e = none ↔
      (fs.existsFile e.2 = true ∧ 999 < fs.getsize e.2) := by
  unfold stemProblemOf
  by_cases h1 : fs.existsFile e.2
  · by_cases h2 : fs.getsize e.2 < 1000
    · simp [h1, h2]
      omega
    · simp [h1, h2]
      omega
  · simp [h1]

/-- The validator reports ok iff every entry exists and meets the minimum
size. -/
theorem validateStemsIntegrity_ok_iff (fs : Fs) (stems : List (String × Path)) :
    (validateStemsIntegrity fs stems).1 = true ↔
      ∀ e ∈ stems, fs.existsFile e.2 = true ∧ 999 < fs.getsize e.2 := by
  show (validateStemsIntegrity fs stems).2.isEmpty = true ↔ _
  rw [validateStemsIntegrity_missing_eq]
  rw [List.isEmpty_iff, List.filterMap_eq_nil_iff]
  constructor
  · intro h e he
    exact (stemProblemOf_eq_none_iff fs e).mp (h e he)
  · intro h e he
    exact (stemProblemOf_eq_none_iff fs e).mpr (h e he)

theorem stemProblemOf_eq_some_notFound (fs : Fs) (e : String × Path) (n : String) :
    stemProblemOf fs e = some (n, StemProblem.notFound) ↔
      e.1 = n ∧ fs.existsFile e.2 = false := by
  unfold stemProblemOf
  by_cases h1 : fs.existsFile e.2
  · by_cases h2 : fs.getsize e.2 < 1000
    · rw [if_neg (by simp [h1]), if_pos h2]
      constructor
      · intro h
        simp at h
      · rintro ⟨-, hf⟩
        simp [h1] at hf
    · rw [if_neg (by simp [h1]), if_neg h2]
      constructor
      · intro h
        exact Option.noConfusion h
      · rintro ⟨-, hf⟩
        simp [h1] at hf
  · have hf : fs.existsFile e.2 = false := by simpa using h1
    rw [if_pos (by simp [hf])]
    simp [hf]

theorem stemProblemOf_eq_some_undersized (fs : Fs) (e : String × Path)
    (n : String) (b : Nat) :
    stemProblemOf fs e = some (n, StemProblem.undersized b) ↔
      e.1 = n ∧ fs.existsFile e.2 = true ∧ fs.getsize e.2 = b ∧ b < 1000 := by
  unfold stemProblemOf
  by_cases h1 : fs.existsFile e.2
  · by_cases h2 : fs.getsize e.2 < 1000
    · rw [if_neg (by simp [h1]), if_pos h2]
      constructor
      · intro h
        simp only [Option.some_inj, Prod.mk.injEq, StemProblem.undersized.injEq] at h
        exact ⟨h.1, h1, h.2, h.2 ▸ h2⟩
      · rintro ⟨hn, -, hb, -⟩
        simp [hn, hb]
    · rw [if_neg (by simp [h1]), if_neg h2]
      constructor
      · intro h
        exact Option.noConfusion h
      · rintro ⟨-, -, hb, hlt⟩
        omega
  · have hf : fs.existsFile e.2 = false := by simpa using h1
    rw [if_pos (by simp [hf])]
    constructor
    · intro h
      simp at h
    · rintro ⟨-, hx, -, -⟩
      simp [hf] at hx

/-- C4. The integrity validator reports ok exactly when every entry of the
mapping names an existing file of sufficient size (above 999 bytes, i.e. not
below the 1000-byte minimum constant); the problem list contains a
`notFound`-tagged entry exactly for the names whose path is missing, and an
`undersized`-tagged entry (carrying the observed size) exactly for the names
whose path exists but is below the minimum. -/
theorem C4_validator_characterization (fs : Fs) (stems : List (String × Path)) :
    ((validateStemsIntegrity fs stems).1 = true ↔
      ∀ e ∈ stems, fs.existsFile e.2 = true ∧ 999 < fs.getsize e.2) ∧
    (∀ n, (n, StemProblem.notFound) ∈ (validateStemsIntegrity fs stems).2 ↔
      ∃ p, (n, p) ∈ stems ∧ fs.existsFile p = false) ∧
    (∀ n b, (n, StemProblem.undersized b) ∈ (validateStemsIntegrity fs stems).2 ↔
      ∃ p, (n, p) ∈ stems ∧ fs.existsFile p = true ∧ fs.getsize p = b ∧ b < 1000) := by
  refine ⟨validateStemsIntegrity_ok_iff fs stems, ?_, ?_⟩
  · intro n
    rw [validateStemsIntegrity_missing_eq, List.mem_filterMap]
    constructor
    · rintro ⟨⟨m, p⟩, hmem, hsome⟩
      obtain ⟨h1, h2⟩ := (stemProblemOf_eq_some_notFound fs (m, p) n).mp hsome
      have hm : m = n := h1
      exact ⟨p, hm ▸ hmem, h2⟩
    · rintro ⟨p, hmem, h2⟩
      exact ⟨(n, p), hmem,
        (stemProblemOf_eq_some_notFound fs (n, p) n).mpr ⟨rfl, h2⟩⟩
  · intro n b
    rw [validateStemsIntegrity_missing_eq, List.mem_filterMap]
    constructor
    · rintro ⟨⟨m, p⟩, hmem, hsome⟩
      obtain ⟨h1, h2, h3, h4⟩ :=
        (stemProblemOf_eq_some_undersized fs (m, p) n b).mp hsome
      have hm : m = n := h1
      exact ⟨p, hm ▸ hmem, h2, h3, h4⟩
    · rintro ⟨p, hmem, h2, h3, h4⟩
      exact ⟨(n, p), hmem,
        (stemProblemOf_eq_some_undersized fs (n, p) n b).mpr ⟨rfl, h2, h3, h4⟩⟩

/-- C6, counterexample. `agregar_cancion` does not fail when a song with
the same content identity is already present: it appends unconditionally, and
the resulting ledger holds two songs sharing identity 7 — the claimed
invariant is violated by a direct `add`. -/
theorem C6_counterexample :
    agregarCancion [c6First] c6Second = [c6First, c6Second] ∧
    c6First.hash = c6Second.hash ∧
    ¬ identUnique (agregarCancion [c6First] c6Second) := by
  refine ⟨rfl, rfl, ?_⟩
  intro h
  have h2 := (List.pairwise_cons.mp h).1 c6Second (by simp)
  exact h2 rfl

theorem replaceByHash_map_hash (canciones : List Cancion) (h : Nat)
    (c' : Cancion) (hc : c'.hash = h) :
    (replaceByHash canciones h c').map Cancion.hash =
      canciones.map Cancion.hash := by
  induction canciones with
  | nil => rfl
  | cons c rest ih =>
    unfold replaceByHash
    by_cases hch : c.hash = h
    · simp [hch, hc]
    · simp [hch, ih]

theorem identUnique_of_map_hash_eq {l₁ l₂ : List Cancion}
    (h : l₁.map Cancion.hash = l₂.map Cancion.hash) :
    identUnique l₁ → identUnique l₂ := by
  intro hu
  unfold identUnique at hu ⊢
  rw [← List.pairwise_map (f := Cancion.hash) (R := fun a b => a ≠ b)] at hu ⊢
  rw [← h]
  exact hu

/-- C6, amended. `agregar_cancion` itself enforces nothing about
identities: it appends unconditionally (after a type check that is static
here), so it cannot fail on a duplicate. The at-most-one-song-per-identity
invariant is instead maintained by the upload flow, which resolves the
uploaded content's identity first and never adds a song when one with that
identity already exists: `upload_file` preserves the invariant. -/
theorem C6_upload_preserves_identUnique (st : AppState) (filename : String)
    (content : FileInfo) (h : identUnique st.canciones) :
    identUnique (uploadFile st filename content).2.canciones ∧
    ∀ (canciones : List Cancion) (c : Cancion),
      agregarCancion canciones c = canciones ++ [c] := by
  refine ⟨?_, fun _ _ => rfl⟩
  unfold uploadFile
  cases hfind : encontrarCancionPorHash st.canciones content.digest with
  | some c =>
    have hc : c.hash = content.digest := by
      have := List.find?_some hfind
      simpa using this
    simp only [hfind]
    split <;> split <;>
      exact identUnique_of_map_hash_eq
        (Eq.symm (replaceByHash_map_hash st.canciones content.digest _ hc)) h
  | none =>
    simp only [hfind]
    unfold agregarCancion identUnique
    rw [List.pairwise_append]
    refine ⟨h, by simp, ?_⟩
    intro a ha b hb
    simp only [List.mem_singleton] at hb
    subst hb
    have := List.find?_eq_none.mp hfind a ha
    simpa using this

/-- C6, witness. The upload flow applied to a concrete ledger keeps
identities unique. -/
theorem C6_upload_preserves_identUnique_witness :
    identUnique ({ canciones := [c6First], fs := { files := [], dirs := [] } } :
        AppState).canciones ∧
    identUnique (uploadFile
      { canciones := [c6First], fs := { files := [], dirs := [] } }
      "a_copy.mp3" { size := 4000, digest := 7 }).2.canciones :=
  ⟨by simp [identUnique],
    (C6_upload_preserves_identUnique
      { canciones := [c6First], fs := { files := [], dirs := [] } }
      "a_copy.mp3" { size := 4000, digest := 7 }
      (by simp [identUnique])).1⟩

/-- C7. A missing store and an empty store both yield the distinguished
no-prior-state signal (the `ValueError` that app.py catches separately from
real errors); for a non-empty store the load always succeeds, returning
exactly the well-formed records in order — every malformed record is skipped
without aborting the load, and every well-formed record survives. -/
theorem C7_load_tolerates_corruption :
    cargarEstado none = Except.error LoadSignal.noSavedState ∧
    cargarEstado (some []) = Except.error LoadSignal.noSavedState ∧
    ∀ (data : List SongRec), data ≠ [] →
      cargarEstado (some data) = Except.ok (data.filterMap parseSongRec) ∧
      ∀ r ∈ data, ∀ c, parseSongRec r = some c →
        c ∈ data.filterMap parseSongRec := by
  refine ⟨rfl, rfl, ?_⟩
  intro data hne
  constructor
  · have hE : ¬ data.isEmpty = true := by simpa [List.isEmpty_iff] using hne
    simp [cargarEstado, hE]
  · intro r hr c hc
    exact List.mem_filterMap.mpr ⟨r, hr, hc⟩

/-- C7, witness. On a concrete store holding a malformed record between
two good ones, the load succeeds and both good records survive. -/
theorem C7_load_tolerates_corruption_witness :
    cargarEstado (some [c7Good, c7Bad, c7Good2]) =
      Except.ok ([c7Good, c7Bad, c7Good2].filterMap parseSongRec) ∧
    ∀ r ∈ [c7Good, c7Bad, c7Good2], ∀ c, parseSongRec r = some c →
      c ∈ [c7Good, c7Bad, c7Good2].filterMap parseSongRec :=
  C7_load_tolerates_corruption.2.2 [c7Good, c7Bad, c7Good2] (by decide)

theorem mem_survivors_iff (fs2 : Fs) (outDir : Path) (songName s : String)
    (hs : s ∈ expectedStems) :
    (s, stemPath outDir songName s) ∈ survivors fs2 outDir songName ↔
      stemSurvives fs2 outDir songName s = true := by
  unfold survivors
  rw [List.mem_filterMap]
  constructor
  · rintro ⟨t, ht, hsome⟩
    by_cases hp : stemSurvives fs2 outDir songName t = true
    · rw [if_pos hp] at hsome
      have h2 := Option.some_inj.mp hsome
      have ht2 : t = s := congrArg Prod.fst h2
      exact ht2 ▸ hp
    · rw [if_neg hp] at hsome
      exact Option.noConfusion hsome
  · intro hp
    exact ⟨s, hs, by rw [if_pos hp]⟩

theorem mem_survivors_shape (fs2 : Fs) (outDir : Path) (songName : String) :
    ∀ x ∈ survivors fs2 outDir songName,
      x.1 ∈ expectedStems ∧ x.2 = stemPath outDir songName x.1 ∧
        stemSurvives fs2 outDir songName x.1 = true := by
  intro x hx
  unfold survivors at hx
  rw [List.mem_filterMap] at hx
  obtain ⟨t, ht, hsome⟩ := hx
  by_cases hp : stemSurvives fs2 outDir songName t = true
  · rw [if_pos hp] at hsome
    have h2 := Option.some_inj.mp hsome
    subst h2
    exact ⟨ht, rfl, hp⟩
  · rw [if_neg hp] at hsome
    exact Option.noConfusion hsome

theorem survivors_eq_nil_iff (fs2 : Fs) (outDir : Path) (songName : String) :
    survivors fs2 outDir songName = [] ↔
      ∀ s ∈ expectedStems, stemSurvives fs2 outDir songName s = false := by
  unfold survivors
  rw [List.filterMap_eq_nil_iff]
  constructor
  · intro h s hs
    have h2 := h s hs
    by_cases hp : stemSurvives fs2 outDir songName s = true
    · rw [if_pos hp] at h2
      exact Option.noConfusion h2
    · exact Bool.eq_false_iff.mpr hp
  · intro h s hs
    rw [if_neg (by simp [h s hs])]

theorem map_fst_filterMap_guard (l : List String) (p : String → Bool)
    (g : String → Path) :
    (l.filterMap (fun t => if p t = true then some (t, g t) else none)).map
        Prod.fst = l.filter p := by
  induction l with
  | nil => rfl
  | cons t rest ih =>
    by_cases hp : p t = true
    · simp [hp, ih]
    · simp [hp, ih]

/-- C5. On a cache miss with an existing input, `separate_stems` invokes
the engine exactly once (also when it fails: no automatic retry), and raises
exactly when the engine exits nonzero, or exits zero without the expected
output directory existing, or no produced artifact meets the 1000-byte
threshold; on success the returned mapping contains an expected stem iff its
artifact survives the size check — an undersized artifact is dropped
individually without failing the batch. -/
theorem C5_recomputation_contract (engine : Engine) (fs : Fs)
    (input outDir : Path)
    (hin : fs.existsFile input = true)
    (hmiss : allStemsCached fs outDir (songNameOf input) = false) :
    (separateStems engine fs input outDir).2.2 = 1 ∧
    (separateStems engine fs input outDir).2.1 =
      applyEngine fs (demucsOutputDir outDir (songNameOf input))
        (engine fs input outDir) ∧
    ((∃ e, (separateStems engine fs input outDir).1 = Except.error e) ↔
      ((engine fs input outDir).exitCode ≠ 0 ∨
        (applyEngine fs (demucsOutputDir outDir (songNameOf input))
            (engine fs input outDir)).existsDir
          (demucsOutputDir outDir (songNameOf input)) = false ∨
        ∀ s ∈ expectedStems,
          stemSurvives
            (applyEngine fs (demucsOutputDir outDir (songNameOf input))
              (engine fs input outDir))
            outDir (songNameOf input) s = false)) ∧
    (∀ stems, (separateStems engine fs input outDir).1 = Except.ok stems →
      ∀ s ∈ expectedStems,
        ((s, stemPath outDir (songNameOf input) s) ∈ stems ↔
          stemSurvives
            (applyEngine fs (demucsOutputDir outDir (songNameOf input))
              (engine fs input outDir))
            outDir (songNameOf input) s = true)) := by
  simp only [separateStems, hin, hmiss]
  rw [if_neg (by simp), if_neg (by simp)]
  by_cases hexit : (engine fs input outDir).exitCode = 0
  · rw [if_neg (by simp [hexit])]
    by_cases hdir :
        (applyEngine fs (demucsOutputDir outDir (songNameOf input))
          (engine fs input outDir)).existsDir
          (demucsOutputDir outDir (songNameOf input)) = true
    · rw [if_neg (by simp [hdir])]
      by_cases hempty :
          (survivors
            (applyEngine fs (demucsOutputDir outDir (songNameOf input))
              (engine fs input outDir))
            outDir (songNameOf input)).isEmpty = true
      · rw [if_pos hempty]
        refine ⟨rfl, rfl, ?_, ?_⟩
        · constructor
          · intro _
            refine Or.inr (Or.inr ?_)
            exact (survivors_eq_nil_iff _ _ _).mp (List.isEmpty_iff.mp hempty)
          · intro _
            exact ⟨SepErr.allStemsEmpty, rfl⟩
        · intro stems hstems
          simp at hstems
      · rw [if_neg hempty]
        refine ⟨rfl, rfl, ?_, ?_⟩
        · constructor
          · rintro ⟨e, he⟩
            exact Except.noConfusion he
          · rintro (h1 | h2 | h3)
            · exact absurd hexit h1
            · rw [hdir] at h2
              exact Bool.noConfusion h2
            · refine absurd ((survivors_eq_nil_iff _ _ _).mpr h3) ?_
              simpa [List.isEmpty_iff] using hempty
        · intro stems hstems
          have hst : stems = survivors
              (applyEngine fs (demucsOutputDir outDir (songNameOf input))
                (engine fs input outDir)) outDir (songNameOf input) :=
            (Except.ok.inj hstems).symm
          intro s hs
          rw [hst]
          exact mem_survivors_iff _ _ _ s hs
    · rw [if_pos (by simpa using hdir)]
      refine ⟨rfl, rfl, ?_, ?_⟩
      · constructor
        · intro _
          exact Or.inr (Or.inl (by simpa using hdir))
        · intro _
          exact ⟨SepErr.noOutputDir, rfl⟩
      · intro stems hstems
        simp at hstems
  · rw [if_pos hexit]
    refine ⟨rfl, rfl, ?_, ?_⟩
    · constructor
      · intro _
        exact Or.inl hexit
      · intro _
        exact ⟨SepErr.engineFailed (engine fs input outDir).exitCode, rfl⟩
    · intro stems hstems
      simp at hstems

/-- C5, witness. At the concrete miss scenario the engine is invoked
exactly once, and the undersized artifact is dropped from the result while
the good ones are kept. -/
theorem C5_recomputation_contract_witness :
    (separateStems c5Engine c5Fs ["uploads", "w.mp3"] outputFolder).2.2 = 1 ∧
    ∀ stems,
      (separateStems c5Engine c5Fs ["uploads", "w.mp3"] outputFolder).1 =
        Except.ok stems →
      ∀ s ∈ expectedStems,
        ((s, stemPath outputFolder (songNameOf ["uploads", "w.mp3"]) s) ∈ stems ↔
          stemSurvives
            (applyEngine c5Fs
              (demucsOutputDir outputFolder (songNameOf ["uploads", "w.mp3"]))
              (c5Engine c5Fs ["uploads", "w.mp3"] outputFolder))
            outputFolder (songNameOf ["uploads", "w.mp3"]) s = true) :=
  ⟨(C5_recomputation_contract c5Engine c5Fs ["uploads", "w.mp3"] outputFolder
      (by decide) (by decide)).1,
    (C5_recomputation_contract c5Engine c5Fs ["uploads", "w.mp3"] outputFolder
      (by decide) (by decide)).2.2.2⟩

/-- C1, counterexample. The ensure request `/separar` for `a.mp3`
returns the registered song's stems as a cache hit even though the byte
content now at `uploads/a.mp3` (digest 222) differs from that song's
content identity (111): resolution is by filename, and a filename collision
across different content does produce a false cache hit. -/
theorem C1_counterexample :
    c1St.fs.fileHash (uploadFolder ++ ["a.mp3"]) ≠ c1Cancion.hash ∧
    encontrarCancionPorArchivo c1St.canciones "a.mp3" = some c1Cancion ∧
    (separar c1Engine c1St "a.mp3").1 = SepResp.cacheHit
      [("vocals", ["outputs_remix", "htdemucs", "a", "vocals.wav"]),
       ("drums", ["outputs_remix", "htdemucs", "a", "drums.wav"]),
       ("bass", ["outputs_remix", "htdemucs", "a", "bass.wav"]),
       ("other", ["outputs_remix", "htdemucs", "a", "other.wav"])] ∧
    (separar c1Engine c1St "a.mp3").2.2 = 0 := by
  decide

/-- C1, amended. The ensure request resolves its Song by filename, not by
content identity: whenever a registered song's source basename matches the
requested name and its recorded stems validate, the request answers with that
song's stems as a cache hit and zero engine invocations — no hypothesis
relates the uploaded bytes' digest to the song's identity; and a request
whose name matches no registered basename (for example a byte-identical
upload under a new name) is answered `notRegistered`, also without consulting
identities. -/
theorem C1_resolution_by_filename :
    (∀ (engine : Engine) (st : AppState) (nombre : String) (c : Cancion),
      formatoSoportado nombre = true →
      st.fs.existsFile (uploadFolder ++ [nombre]) = true →
      st.fs.getsize (uploadFolder ++ [nombre]) ≠ 0 →
      encontrarCancionPorArchivo st.canciones nombre = some c →
      ¬ c.pistas.isEmpty = true →
      (validateStemsIntegrity st.fs (stemsDictOf c.pistas)).1 = true →
      separar engine st nombre =
        (SepResp.cacheHit (c.pistas.foldl
            (fun acc p => insertDict acc p.nombre (publicPath p.archivo_ruta))
            []),
          st, 0)) ∧
    (∀ (engine : Engine) (st : AppState) (nombre : String),
      formatoSoportado nombre = true →
      st.fs.existsFile (uploadFolder ++ [nombre]) = true →
      st.fs.getsize (uploadFolder ++ [nombre]) ≠ 0 →
      encontrarCancionPorArchivo st.canciones nombre = none →
      separar engine st nombre = (SepResp.notRegistered, st, 0)) := by
  constructor
  · intro engine st nombre c hf hex hsz hfind hne hok
    unfold separar
    rw [if_neg (by simp [hf]), if_neg (by simp [hex]), if_neg hsz]
    simp only [hfind]
    rw [if_neg hne, if_pos hok]
  · intro engine st nombre hf hex hsz hfind
    unfold separar
    rw [if_neg (by simp [hf]), if_neg (by simp [hex]), if_neg hsz]
    simp only [hfind]

/-- C1, witness. The amended statement applied at the concrete C1
scenario. -/
theorem C1_resolution_by_filename_witness :
    separar c1Engine c1St "a.mp3" =
      (SepResp.cacheHit (c1Cancion.pistas.foldl
          (fun acc p => insertDict acc p.nombre (publicPath p.archivo_ruta))
          []),
        c1St, 0) :=
  C1_resolution_by_filename.1 c1Engine c1St "a.mp3" c1Cancion
    (by decide) (by decide) (by decide) (by decide) (by decide) (by decide)

theorem allStemsCached_false_of_bad (fs : Fs) (outDir : Path)
    (songName s : String) (hs : s ∈ expectedStems)
    (hbad : ¬ (fs.existsFile (stemPath outDir songName s) = true ∧
      999 < fs.getsize (stemPath outDir songName s))) :
    allStemsCached fs outDir songName = false := by
  apply Bool.eq_false_iff.mpr
  intro h
  unfold allStemsCached at h
  rw [Bool.and_eq_true] at h
  have h2 := List.all_eq_true.mp h.2 s hs
  rw [Bool.and_eq_true] at h2
  apply hbad
  refine ⟨h2.1, ?_⟩
  have h3 := of_decide_eq_true h2.2
  omega

theorem separateStems_invokes_once (engine : Engine) (fs : Fs)
    (input outDir : Path)
    (hin : fs.existsFile input = true)
    (hmiss : allStemsCached fs outDir (songNameOf input) = false) :
    (separateStems engine fs input outDir).2.2 = 1 := by
  simp only [separateStems, hin, hmiss]
  rw [if_neg (by simp), if_neg (by simp)]
  by_cases hexit : (engine fs input outDir).exitCode = 0
  · rw [if_neg (by simp [hexit])]
    by_cases hdir :
        (applyEngine fs (demucsOutputDir outDir (songNameOf input))
          (engine fs input outDir)).existsDir
          (demucsOutputDir outDir (songNameOf input)) = true
    · rw [if_neg (by simp [hdir])]
      by_cases hempty :
          (survivors
            (applyEngine fs (demucsOutputDir outDir (songNameOf input))
              (engine fs input outDir))
            outDir (songNameOf input)).isEmpty = true
      · rw [if_pos hempty]
      · rw [if_neg hempty]
    · rw [if_pos (by simpa using hdir)]
  · rw [if_pos hexit]

theorem runSeparation_count (engine : Engine) (st : AppState)
    (nombre : String) (ruta : Path) :
    (runSeparation engine st nombre ruta).2.2 =
      (separateStems engine st.fs ruta outputFolder).2.2 := by
  simp only [runSeparation]
  split
  · rfl
  · split
    · rfl
    · rfl

theorem runSeparation_ne_cacheHit (engine : Engine) (st : AppState)
    (nombre : String) (ruta : Path) (pb : List (String × Path)) :
    (runSeparation engine st nombre ruta).1 ≠ SepResp.cacheHit pb := by
  simp only [runSeparation]
  split
  · simp
  · split
    · simp
    · simp

theorem stemsDict_aux (ps : List Pista) :
    ∀ acc : List (String × Path),
      (ps.map (fun p => p.nombre)).Nodup →
      (∀ e ∈ acc, ¬ e.1 ∈ ps.map (fun p => p.nombre)) →
      ps.foldl (fun acc p => insertDict acc p.nombre p.archivo_ruta) acc =
        acc ++ ps.map (fun p => (p.nombre, p.archivo_ruta)) := by
  induction ps with
  | nil =>
    intro acc _ _
    simp
  | cons p rest ih =>
    intro acc hn hacc
    rw [List.foldl_cons]
    have hnot : ¬ acc.any (fun e => e.1 = p.nombre) = true := by
      rw [List.any_eq_true]
      rintro ⟨e, he, heq⟩
      have heq2 : e.1 = p.nombre := of_decide_eq_true heq
      have hmem : e.1 ∈ List.map (fun p => p.nombre) (p :: rest) := by
        rw [List.map_cons, List.mem_cons]
        exact Or.inl heq2
      exact hacc e he hmem
    have hins : insertDict acc p.nombre p.archivo_ruta =
        acc ++ [(p.nombre, p.archivo_ruta)] := by
      unfold insertDict
      rw [if_neg hnot]
    rw [hins]
    rw [List.map_cons] at hn
    have hn1 := List.nodup_cons.mp hn
    have hacc2 : ∀ e ∈ acc ++ [(p.nombre, p.archivo_ruta)],
        ¬ e.1 ∈ rest.map (fun p => p.nombre) := by
      intro e he
      rcases List.mem_append.mp he with h1 | h2
      · have h3 := hacc e h1
        rw [List.map_cons, List.mem_cons] at h3
        intro hmem
        exact h3 (Or.inr hmem)
      · simp only [List.mem_singleton] at h2
        subst h2
        exact hn1.1
    rw [ih (acc ++ [(p.nombre, p.archivo_ruta)]) hn1.2 hacc2]
    simp

theorem stemsDictOf_eq_map (ps : List Pista)
    (h : (ps.map (fun p => p.nombre)).Nodup) :
    stemsDictOf ps = ps.map (fun p => (p.nombre, p.archivo_ruta)) := by
  unfold stemsDictOf
  rw [stemsDict_aux ps [] h (by simp)]
  simp

/-- C2. If a registered song carries recorded stems (as the app records
them: named after expected stems, located at their per-song artifact paths,
names distinct) and at least one of them fails integrity validation, then the
ensure request behaves exactly as if the whole stem set had been discarded
first (the state passed on to recomputation carries an emptied stem list for
that song — not just the failing entries removed), the separation engine is
invoked exactly once, and the request is never answered from the cache. -/
theorem C2_invalid_discards_all (engine : Engine) (st : AppState)
    (nombre : String) (c : Cancion)
    (hf : formatoSoportado nombre = true)
    (hex : st.fs.existsFile (uploadFolder ++ [nombre]) = true)
    (hsz : st.fs.getsize (uploadFolder ++ [nombre]) ≠ 0)
    (hfind : encontrarCancionPorArchivo st.canciones nombre = some c)
    (hne : ¬ c.pistas.isEmpty = true)
    (hnodup : (c.pistas.map (fun p => p.nombre)).Nodup)
    (hpaths : ∀ p ∈ c.pistas, p.nombre ∈ expectedStems ∧
      p.archivo_ruta =
        stemPath outputFolder (songNameOf (uploadFolder ++ [nombre])) p.nombre)
    (hbad : ∃ p ∈ c.pistas, ¬ (st.fs.existsFile p.archivo_ruta = true ∧
      999 < st.fs.getsize p.archivo_ruta)) :
    separar engine st nombre =
      runSeparation engine
        { st with canciones := setPistas st.canciones nombre [] } nombre
        (uploadFolder ++ [nombre]) ∧
    (separar engine st nombre).2.2 = 1 ∧
    ∀ pb, (separar engine st nombre).1 ≠ SepResp.cacheHit pb := by
  obtain ⟨p, hp, hpbad⟩ := hbad
  have hvfail : ¬ (validateStemsIntegrity st.fs (stemsDictOf c.pistas)).1 = true := by
    intro hok
    have hall := (validateStemsIntegrity_ok_iff st.fs (stemsDictOf c.pistas)).mp hok
    have hmem : (p.nombre, p.archivo_ruta) ∈ stemsDictOf c.pistas := by
      rw [stemsDictOf_eq_map c.pistas hnodup]
      exact List.mem_map.mpr ⟨p, hp, rfl⟩
    exact hpbad (hall (p.nombre, p.archivo_ruta) hmem)
  have hsep : separar engine st nombre =
      runSeparation engine
        { st with canciones := setPistas st.canciones nombre [] } nombre
        (uploadFolder ++ [nombre]) := by
    unfold separar
    rw [if_neg (by simp [hf]), if_neg (by simp [hex]), if_neg hsz]
    simp only [hfind]
    rw [if_neg hne, if_neg hvfail]
  have hmiss : allStemsCached st.fs outputFolder
      (songNameOf (uploadFolder ++ [nombre])) = false := by
    refine allStemsCached_false_of_bad st.fs outputFolder _ p.nombre
      (hpaths p hp).1 ?_
    rw [← (hpaths p hp).2]
    exact hpbad
  refine ⟨hsep, ?_, ?_⟩
  · rw [hsep, runSeparation_count]
    exact separateStems_invokes_once engine st.fs (uploadFolder ++ [nombre])
      outputFolder hex hmiss
  · intro pb
    rw [hsep]
    exact runSeparation_ne_cacheHit engine _ nombre _ pb

/-- C2, witness. With the concrete `bass` artifact deleted, the ensure
request for `w.mp3` recomputes: exactly one engine invocation, and the
response equals the response from the discarded-stems state. -/
theorem C2_invalid_discards_all_witness :
    separar c5Engine c2St "w.mp3" =
      runSeparation c5Engine
        { c2St with canciones := setPistas c2St.canciones "w.mp3" [] } "w.mp3"
        (uploadFolder ++ ["w.mp3"]) ∧
    (separar c5Engine c2St "w.mp3").2.2 = 1 ∧
    ∀ pb, (separar c5Engine c2St "w.mp3").1 ≠ SepResp.cacheHit pb :=
  C2_invalid_discards_all c5Engine c2St "w.mp3" c2Cancion
    (by decide) (by decide) (by decide) (by decide) (by decide) (by decide)
    (by decide)
    ⟨{ nombre := "bass", archivo_ruta := stemPath outputFolder "w" "bass" },
      by decide, by decide⟩

theorem basename_concat (l : Path) (x : String) : basename (l ++ [x]) = x := by
  simp [basename, List.getLast?_concat]

theorem find?_filter_ne (files : List (Path × FileInfo)) (p q : Path)
    (hq : q ≠ p) :
    (files.filter (fun e => ¬ e.1 = p)).find? (fun e => e.1 = q) =
      files.find? (fun e => e.1 = q) := by
  induction files with
  | nil => rfl
  | cons a rest ih =>
    by_cases hap : a.1 = p
    · have haq : ¬ a.1 = q := by
        rw [hap]
        exact fun hpq => hq hpq.symm
      rw [List.filter_cons_of_neg (by simpa using hap),
        List.find?_cons_of_neg _ (by simpa using haq)]
      exact ih
    · rw [List.filter_cons_of_pos (by simpa using hap)]
      by_cases haq : a.1 = q
      · rw [List.find?_cons_of_pos _ (by simpa using haq),
          List.find?_cons_of_pos _ (by simpa using haq)]
      · rw [List.find?_cons_of_neg _ (by simpa using haq),
          List.find?_cons_of_neg _ (by simpa using haq)]
        exact ih

theorem lookup_writeFile (fs : Fs) (p q : Path) (i : FileInfo) :
    (fs.writeFile p i).lookup q = if q = p then some i else fs.lookup q := by
  unfold Fs.writeFile Fs.lookup
  simp only [List.find?_append]
  by_cases hq : q = p
  · subst hq
    have h1 : (fs.files.filter (fun e => ¬ e.1 = q)).find?
        (fun e => e.1 = q) = none := by
      rw [List.find?_eq_none]
      intro x hx
      have h2 := (List.mem_filter.mp hx).2
      simp only [decide_not, Bool.not_eq_true', decide_eq_false_iff_not] at h2
      simpa using h2
    rw [h1, if_pos rfl]
    simp [List.find?]
  · rw [if_neg hq, find?_filter_ne fs.files p q hq]
    have h2 : (([(p, i)] : List (Path × FileInfo))).find?
        (fun e => e.1 = q) = none := by
      rw [List.find?_eq_none]
      intro x hx
      simp only [List.mem_singleton] at hx
      subst hx
      simpa using fun hpq => hq hpq.symm
    rw [h2, Option.or_none]

theorem lookup_applyEngine (fs : Fs) (dDir : Path) (out : EngineOut) (q : Path)
    (hq : ∀ n : String, q ≠ dDir ++ [n]) :
    (applyEngine fs dDir out).lookup q = fs.lookup q := by
  have hfold : ∀ (l : List (String × Nat)) (fs0 : Fs),
      (l.foldl (fun a e =>
        a.writeFile (dDir ++ [e.1]) { size := e.2, digest := 0 }) fs0).lookup
        q = fs0.lookup q := by
    intro l
    induction l with
    | nil => intro fs0; rfl
    | cons e rest ih =>
      intro fs0
      rw [List.foldl_cons, ih, lookup_writeFile, if_neg (hq e.1)]
  unfold applyEngine
  split
  · exact hfold out.produced fs
  · exact hfold out.produced fs

theorem uploads_ne_demucs_child (nombre songName n : String) :
    uploadFolder ++ [nombre] ≠ demucsOutputDir outputFolder songName ++ [n] := by
  intro h
  have h2 := congrArg List.length h
  simp [uploadFolder, demucsOutputDir, outputFolder] at h2

theorem applyEngine_preserves_upload (fs : Fs) (songName n : String)
    (out : EngineOut) :
    (applyEngine fs (demucsOutputDir outputFolder songName) out).existsFile
        (uploadFolder ++ [n]) = fs.existsFile (uploadFolder ++ [n]) ∧
    (applyEngine fs (demucsOutputDir outputFolder songName) out).getsize
        (uploadFolder ++ [n]) = fs.getsize (uploadFolder ++ [n]) := by
  have hq := lookup_applyEngine fs (demucsOutputDir outputFolder songName) out
    (uploadFolder ++ [n]) (fun m => uploads_ne_demucs_child n songName m)
  constructor
  · simp only [Fs.existsFile, hq]
  · simp only [Fs.getsize, hq]

theorem encontrar_setPistas (canciones : List Cancion) (nombre : String)
    (ps : List Pista) (c : Cancion)
    (h : encontrarCancionPorArchivo canciones nombre = some c) :
    encontrarCancionPorArchivo (setPistas canciones nombre ps) nombre =
      some { c with pistas := ps } := by
  induction canciones with
  | nil => exact Option.noConfusion h
  | cons a rest ih =>
    unfold encontrarCancionPorArchivo at h ⊢
    unfold setPistas
    by_cases hb : basename a.archivo_ruta = nombre
    · rw [if_pos hb]
      rw [List.find?_cons_of_pos _ (by simpa using hb)] at h
      have hac : a = c := by simpa using h
      subst hac
      rw [List.find?_cons_of_pos _ (by simpa using hb)]
    · rw [if_neg hb]
      rw [List.find?_cons_of_neg _ (by simpa using hb)] at h
      rw [List.find?_cons_of_neg _ (by simpa using hb)]
      exact ih h

theorem setPistas_setPistas (canciones : List Cancion) (nombre : String)
    (ps qs : List Pista) :
    setPistas (setPistas canciones nombre ps) nombre qs =
      setPistas canciones nombre qs := by
  induction canciones with
  | nil => rfl
  | cons a rest ih =>
    by_cases hb : basename a.archivo_ruta = nombre
    · simp [setPistas, hb]
    · simp [setPistas, hb, ih]

theorem separateStems_ok_inv (engine : Engine) (fs : Fs) (input outDir : Path)
    (stems : List (String × Path)) (fs2 : Fs)
    (h : separateStems engine fs input outDir = (Except.ok stems, fs2, 1)) :
    fs.existsFile input = true ∧
    fs2 = applyEngine fs (demucsOutputDir outDir (songNameOf input))
      (engine fs input outDir) ∧
    stems = survivors fs2 outDir (songNameOf input) ∧
    stems ≠ [] := by
  simp only [separateStems] at h
  split at h
  · simp at h
  · rename_i hin
    have hin2 : fs.existsFile input = true := by simpa using hin
    split at h
    · simp at h
    · split at h
      · simp at h
      · split at h
        · simp at h
        · split at h
          · simp at h
          · rename_i hne
            simp only [Prod.mk.injEq, Except.ok.injEq] at h
            obtain ⟨hstems, hfs2, -⟩ := h
            subst hfs2
            subst hstems
            refine ⟨hin2, rfl, rfl, ?_⟩
            intro hnil
            rw [hnil] at hne
            exact hne rfl

theorem runSeparation_inv (engine : Engine) (st' : AppState) (nombre : String)
    (ruta : Path) (P : List (String × Path)) (st1 : AppState)
    (h : runSeparation engine st' nombre ruta = (SepResp.separated P, st1, 1)) :
    ∃ stems,
      (separateStems engine st'.fs ruta outputFolder).1 = Except.ok stems ∧
      (separateStems engine st'.fs ruta outputFolder).2.2 = 1 ∧
      stems.filter (fun e =>
          (separateStems engine st'.fs ruta outputFolder).2.1.existsFile e.2 &&
          decide (1000 <
            (separateStems engine st'.fs ruta outputFolder).2.1.getsize e.2)) ≠
        [] ∧
      P = (stems.filter (fun e =>
          (separateStems engine st'.fs ruta outputFolder).2.1.existsFile e.2 &&
          decide (1000 <
            (separateStems engine st'.fs ruta outputFolder).2.1.getsize
              e.2))).foldl
        (fun acc e => insertDict acc e.1 (publicPath e.2)) [] ∧
      st1 = AppState.mk
        (setPistas st'.canciones nombre
          ((stems.filter (fun e =>
            (separateStems engine st'.fs ruta outputFolder).2.1.existsFile
              e.2 &&
            decide (1000 <
              (separateStems engine st'.fs ruta outputFolder).2.1.getsize
                e.2))).map
            (fun e => Pista.mk e.1 e.2)))
        (separateStems engine st'.fs ruta outputFolder).2.1 := by
  simp only [runSeparation] at h
  split at h
  · simp at h
  · rename_i stems heq
    split at h
    · simp at h
    · rename_i hvne
      simp only [Prod.mk.injEq, SepResp.separated.injEq] at h
      obtain ⟨hP, hst1, hcount⟩ := h
      refine ⟨stems, heq, hcount, ?_, hP.symm, hst1.symm⟩
      intro hnil
      rw [hnil] at hvne
      exact hvne rfl

theorem runSeparation_then_hit (engine : Engine) (st' : AppState)
    (nombre : String) (P : List (String × Path)) (st1 : AppState)
    (hfmt : formatoSoportado nombre = true)
    (hsz : st'.fs.getsize (uploadFolder ++ [nombre]) ≠ 0)
    (c0 : Cancion)
    (hfound : encontrarCancionPorArchivo st'.canciones nombre = some c0)
    (h : runSeparation engine st' nombre (uploadFolder ++ [nombre]) =
      (SepResp.separated P, st1, 1)) :
    separar engine st1 nombre = (SepResp.cacheHit P, st1, 0) := by
  obtain ⟨stems, heq, hcount, hvne, hP, hst1⟩ :=
    runSeparation_inv engine st' nombre (uploadFolder ++ [nombre]) P st1 h
  have hsep : separateStems engine st'.fs (uploadFolder ++ [nombre])
      outputFolder =
      (Except.ok stems,
        (separateStems engine st'.fs (uploadFolder ++ [nombre])
          outputFolder).2.1, 1) := by
    rw [← heq, ← hcount]
  obtain ⟨hin, hfs2eq, hstems, hsne⟩ :=
    separateStems_ok_inv engine st'.fs (uploadFolder ++ [nombre]) outputFolder
      stems
      ((separateStems engine st'.fs (uploadFolder ++ [nombre])
        outputFolder).2.1)
      hsep
  set fs2 := (separateStems engine st'.fs (uploadFolder ++ [nombre])
    outputFolder).2.1 with hfs2def
  set validos := stems.filter (fun e =>
    fs2.existsFile e.2 && decide (1000 < fs2.getsize e.2)) with hvaldef
  have hup := applyEngine_preserves_upload st'.fs
    (songNameOf (uploadFolder ++ [nombre])) nombre
    (engine st'.fs (uploadFolder ++ [nombre]) outputFolder)
  have hex2 : fs2.existsFile (uploadFolder ++ [nombre]) = true := by
    rw [hfs2eq, hup.1]
    exact hin
  have hsz2 : fs2.getsize (uploadFolder ++ [nombre]) ≠ 0 := by
    rw [hfs2eq, hup.2]
    exact hsz
  have hmemval : ∀ e ∈ validos, fs2.existsFile e.2 = true ∧
      1000 < fs2.getsize e.2 := by
    intro e he
    rw [hvaldef] at he
    have h2 := (List.mem_filter.mp he).2
    simp only [Bool.and_eq_true, decide_eq_true_eq] at h2
    exact h2
  have hnodupNames : ((validos.map
      (fun e => ({ nombre := e.1, archivo_ruta := e.2 } : Pista))).map
      (fun p => p.nombre)).Nodup := by
    have h1 : (validos.map
        (fun e => ({ nombre := e.1, archivo_ruta := e.2 } : Pista))).map
        (fun p => p.nombre) = validos.map Prod.fst := by
      simp [List.map_map]
    rw [h1]
    have h2 : List.Sublist (validos.map Prod.fst) (stems.map Prod.fst) := by
      rw [hvaldef]
      exact (List.filter_sublist stems).map Prod.fst
    have h3 : (stems.map Prod.fst).Nodup := by
      rw [hstems]
      rw [show (survivors fs2 outputFolder
            (songNameOf (uploadFolder ++ [nombre]))).map Prod.fst =
          expectedStems.filter (fun s => stemSurvives fs2 outputFolder
            (songNameOf (uploadFolder ++ [nombre])) s) from
        map_fst_filterMap_guard expectedStems _ _]
      exact List.Nodup.filter _ (by decide)
    exact List.Nodup.sublist h2 h3
  have hne2 : ¬ (validos.map
      (fun e => ({ nombre := e.1, archivo_ruta := e.2 } : Pista))).isEmpty =
      true := by
    intro hemp
    rw [List.isEmpty_iff, List.map_eq_nil_iff] at hemp
    exact hvne hemp
  have hok : (validateStemsIntegrity fs2 (stemsDictOf (validos.map
      (fun e => ({ nombre := e.1, archivo_ruta := e.2 } : Pista))))).1 =
      true := by
    rw [stemsDictOf_eq_map _ hnodupNames]
    apply (validateStemsIntegrity_ok_iff _ _).mpr
    intro e he
    obtain ⟨pP, hpP, hpeq⟩ := List.mem_map.mp he
    obtain ⟨v, hv, hveq⟩ := List.mem_map.mp hpP
    obtain ⟨hA, hB⟩ := hmemval v hv
    subst hveq
    subst hpeq
    constructor
    · exact hA
    · have hB2 : 999 < fs2.getsize v.2 := by omega
      exact hB2
  have hc1 : st1.canciones = setPistas st'.canciones nombre (validos.map
      (fun e => ({ nombre := e.1, archivo_ruta := e.2 } : Pista))) := by
    rw [hst1]
  have hfs1 : st1.fs = fs2 := by
    rw [hst1]
  have hfound2 : encontrarCancionPorArchivo st1.canciones nombre =
      some { c0 with pistas := (validos.map
        (fun e => ({ nombre := e.1, archivo_ruta := e.2 } : Pista))) } := by
    rw [hc1]
    exact encontrar_setPistas st'.canciones nombre _ c0 hfound
  unfold separar
  rw [if_neg (by simp [hfmt])]
  rw [hfs1]
  rw [if_neg (by simp [hex2])]
  rw [if_neg hsz2]
  simp only [hfound2]
  rw [if_neg hne2]
  rw [if_pos hok]
  rw [hP]
  simp only [List.foldl_map]

/-- C3. If an ensure request performed a fresh separation — answering
`separated P` after exactly one engine invocation — then repeating the same
request on the resulting state, with no intervening filesystem change, is a
pure cache hit: it answers `cacheHit` with the identical artifact paths `P`,
leaves the state unchanged, and performs zero further engine invocations —
one invocation in total across the two calls. -/
theorem C3_second_call_pure_hit (engine : Engine) (st : AppState)
    (nombre : String) (P : List (String × Path)) (st1 : AppState)
    (h : separar engine st nombre = (SepResp.separated P, st1, 1)) :
    separar engine st1 nombre = (SepResp.cacheHit P, st1, 0) := by
  simp only [separar] at h
  split at h
  · simp at h
  · rename_i hfmt0
    have hfmt : formatoSoportado nombre = true := by simpa using hfmt0
    split at h
    · simp at h
    · rename_i hex0
      split at h
      · simp at h
      · rename_i hsz0
        split at h
        · simp at h
        · rename_i c hfind
          split at h
          · exact runSeparation_then_hit engine st nombre P st1 hfmt hsz0 c
              hfind h
          · rename_i hpne
            split at h
            · simp at h
            · rename_i hvf
              refine runSeparation_then_hit engine
                { st with canciones := setPistas st.canciones nombre [] }
                nombre P st1 hfmt hsz0 { c with pistas := [] } ?_ h
              exact encontrar_setPistas st.canciones nombre [] c hfind

/-- C3, witness. At the concrete scenario the first call separates
(one engine invocation) and the second call is a pure cache hit returning
the same paths with zero invocations. -/
theorem C3_second_call_pure_hit_witness :
    separar c5Engine ((separar c5Engine c3St "w.mp3").2.1) "w.mp3" =
      (SepResp.cacheHit c3P, (separar c5Engine c3St "w.mp3").2.1, 0) :=
  C3_second_call_pure_hit c5Engine c3St "w.mp3" c3P
    ((separar c5Engine c3St "w.mp3").2.1) (by decide)

theorem isPrefixOf_len_succ {q l : Path} (hpre : q.isPrefixOf l = true)
    (hlen : l.length = q.length + 1) : ∃ x, l = q ++ [x] := by
  obtain ⟨t, rfl⟩ := List.isPrefixOf_iff_prefix.mp hpre
  rw [List.length_append] at hlen
  have ht : t.length = 1 := by omega
  obtain ⟨x, rfl⟩ := List.length_eq_one.mp ht
  exact ⟨x, rfl⟩

theorem listAllStemFiles_mem_elim (root : Path) (fs : Fs) (p : Path)
    (hp : p ∈ listAllStemFiles root fs) :
    ∃ (sd f : String) (i : FileInfo),
      p = root ++ ["htdemucs", sd, f] ∧
      strEndsWith f (".wav") = true ∧
      (root ++ ["htdemucs", sd]) ∈ fs.dirs ∧
      (root ++ ["htdemucs"]) ∈ fs.dirs ∧
      (p, i) ∈ fs.files := by
  simp only [listAllStemFiles] at hp
  split at hp
  · exact absurd hp (List.not_mem_nil p)
  · rename_i hht
    rw [List.mem_flatMap] at hp
    obtain ⟨sd, hsd, hpfile⟩ := hp
    rw [List.mem_filterMap] at hsd
    obtain ⟨d, hd, hdsome⟩ := hsd
    rw [List.mem_filterMap] at hpfile
    obtain ⟨e, he, hesome⟩ := hpfile
    by_cases hdc : d.length = (root ++ ["htdemucs"]).length + 1 ∧
        (root ++ ["htdemucs"]).isPrefixOf d = true
    · rw [if_pos hdc] at hdsome
      obtain ⟨x, rfl⟩ := isPrefixOf_len_succ hdc.2 hdc.1
      have hx : x = sd := by
        rw [List.getLast?_concat] at hdsome
        exact Option.some_inj.mp hdsome
      subst hx
      by_cases hec : e.1.length = (root ++ ["htdemucs"]).length + 2 ∧
          ((root ++ ["htdemucs"]) ++ [x]).isPrefixOf e.1 = true ∧
          strEndsWith (basename e.1) (".wav") = true
      · rw [if_pos hec] at hesome
        obtain rfl := Option.some_inj.mp hesome
        obtain ⟨f, hf⟩ := isPrefixOf_len_succ hec.2.1 (by
          rw [hec.1, List.length_append]
          simp)
        refine ⟨x, f, e.2, ?_, ?_, ?_, ?_, ?_⟩
        · rw [hf]
          simp
        · rw [hf, basename_concat] at hec
          exact hec.2.2
        · simpa using hd
        · have : fs.existsDir (root ++ ["htdemucs"]) = true := by
            simpa using hht
          unfold Fs.existsDir at this
          exact List.elem_iff.mp this
        · exact he
      · rw [if_neg hec] at hesome
        exact Option.noConfusion hesome
    · rw [if_neg hdc] at hdsome
      exact Option.noConfusion hdsome

theorem listAllStemFiles_mem_intro (root : Path) (fs : Fs) (sd f : String)
    (i : FileInfo)
    (hht : (root ++ ["htdemucs"]) ∈ fs.dirs)
    (hsd : (root ++ ["htdemucs", sd]) ∈ fs.dirs)
    (hf : (root ++ ["htdemucs", sd, f], i) ∈ fs.files)
    (hwav : strEndsWith f (".wav") = true) :
    root ++ ["htdemucs", sd, f] ∈ listAllStemFiles root fs := by
  simp only [listAllStemFiles]
  rw [if_neg (by
    simp only [Fs.existsDir]
    intro hc
    exact absurd (List.elem_iff.mpr hht) (by simpa using hc))]
  rw [List.mem_flatMap]
  refine ⟨sd, ?_, ?_⟩
  · rw [List.mem_filterMap]
    refine ⟨root ++ ["htdemucs", sd], ?_, ?_⟩
    · simpa using hsd
    · rw [if_pos ?_]
      · rw [show root ++ ["htdemucs", sd] = (root ++ ["htdemucs"]) ++ [sd] by
          simp]
        rw [List.getLast?_concat]
      · constructor
        · simp
        · rw [show root ++ ["htdemucs", sd] = (root ++ ["htdemucs"]) ++ [sd] by
            simp]
          rw [List.isPrefixOf_iff_prefix]
          exact ⟨[sd], rfl⟩
  · rw [List.mem_filterMap]
    refine ⟨(root ++ ["htdemucs", sd, f], i), hf, ?_⟩
    rw [if_pos ?_]
    refine ⟨?_, ?_, ?_⟩
    · simp
    · rw [List.isPrefixOf_iff_prefix]
      refine ⟨[f], ?_⟩
      simp
    · rw [show root ++ ["htdemucs", sd, f] =
          (root ++ ["htdemucs", sd]) ++ [f] by simp]
      rw [basename_concat]
      exact hwav

theorem cleanup_files_eq (root : Path) (fs : Fs) (estado : List SongRec) :
    ((cleanupOrphanedStems root fs estado).2.2).files =
      fs.files.filter
        (fun e => ¬ (findOrphanedStems root fs estado).contains e.1) := by
  simp only [cleanupOrphanedStems]
  split
  · rfl
  · rfl

theorem cleanup_dirs_subset (root : Path) (fs : Fs) (estado : List SongRec) :
    ∀ d ∈ ((cleanupOrphanedStems root fs estado).2.2).dirs, d ∈ fs.dirs := by
  simp only [cleanupOrphanedStems]
  split
  · intro d hd
    exact (List.mem_filter.mp hd).1
  · intro d hd
    exact hd

theorem cleanup_deleted_eq (root : Path) (fs : Fs) (estado : List SongRec) :
    (cleanupOrphanedStems root fs estado).2.1 =
      findOrphanedStems root fs estado := by
  rfl

theorem mem_findOrphanedStems_iff (root : Path) (fs : Fs)
    (estado : List SongRec) (p : Path) :
    p ∈ findOrphanedStems root fs estado ↔
      p ∈ listAllStemFiles root fs ∧
      ¬ p ∈ getReferencedStems estado := by
  unfold findOrphanedStems
  rw [List.mem_filter]
  constructor
  · rintro ⟨h1, h2⟩
    refine ⟨h1, ?_⟩
    intro hmem
    simp only [decide_not, Bool.not_eq_true', decide_eq_false_iff_not] at h2
    exact h2 (List.elem_iff.mpr hmem)
  · rintro ⟨h1, h2⟩
    refine ⟨h1, ?_⟩
    simp only [decide_not, Bool.not_eq_true', decide_eq_false_iff_not]
    intro hc
    exact h2 (List.elem_iff.mp hc)

theorem refsOfPistas_wf (ps : List PistaRec) :
    ∀ acc, (∀ q ∈ ps, q.archivo_ruta.isSome = true) →
      refsOfPistas ps acc =
        (acc ++ ps.filterMap (fun q => q.archivo_ruta), false) := by
  induction ps with
  | nil =>
    intro acc _
    simp [refsOfPistas]
  | cons q rest ih =>
    intro acc hwf
    obtain ⟨r, hr⟩ := Option.isSome_iff_exists.mp (hwf q (by simp))
    have hstep : refsOfPistas (q :: rest) acc =
        refsOfPistas rest (acc ++ [r]) := by
      simp only [refsOfPistas, hr]
    rw [hstep]
    rw [ih (acc ++ [r]) (fun q2 hq2 => hwf q2 (List.mem_cons_of_mem _ hq2))]
    simp [hr]

theorem getReferencedStems_wf (estado : List SongRec)
    (hwf : ∀ s ∈ estado, ∀ q ∈ s.pistas, q.archivo_ruta.isSome = true) :
    getReferencedStems estado =
      estado.flatMap (fun s => s.pistas.filterMap (fun q => q.archivo_ruta)) := by
  unfold getReferencedStems
  suffices haux : ∀ (l : List SongRec) (acc : List Path),
      (∀ s ∈ l, ∀ q ∈ s.pistas, q.archivo_ruta.isSome = true) →
      refsAux l acc =
        acc ++ l.flatMap (fun s => s.pistas.filterMap (fun q => q.archivo_ruta))
    by simpa using haux estado [] hwf
  intro l
  induction l with
  | nil =>
    intro acc _
    simp [refsAux]
  | cons s rest ih =>
    intro acc hwf2
    unfold refsAux
    rw [refsOfPistas_wf s.pistas acc (hwf2 s (by simp))]
    simp only [if_neg (by simp : ¬ false = true)]
    rw [ih _ (fun s2 hs2 => hwf2 s2 (List.mem_cons_of_mem _ hs2))]
    simp

/-- C8. For a persisted ledger whose stem records all carry their
artifact path: orphan discovery returns exactly the on-disk stem files minus
the ledger-referenced paths, so no ledger-referenced path is ever reported
orphaned; and running cleanup followed by orphan discovery (no concurrent
writers — the filesystem is exactly the one cleanup produced) yields the
empty set. -/
theorem C8_orphans_set_difference (root : Path) (fs : Fs)
    (estado : List SongRec)
    (hwf : ∀ s ∈ estado, ∀ q ∈ s.pistas, q.archivo_ruta.isSome = true) :
    (∀ p, p ∈ findOrphanedStems root fs estado ↔
      (p ∈ listAllStemFiles root fs ∧
        ¬ p ∈ estado.flatMap
          (fun s => s.pistas.filterMap (fun q => q.archivo_ruta)))) ∧
    (∀ s ∈ estado, ∀ q ∈ s.pistas, ∀ r, q.archivo_ruta = some r →
      ¬ r ∈ findOrphanedStems root fs estado) ∧
    findOrphanedStems root ((cleanupOrphanedStems root fs estado).2.2)
      estado = [] := by
  have hrefs := getReferencedStems_wf estado hwf
  refine ⟨?_, ?_, ?_⟩
  · intro p
    rw [mem_findOrphanedStems_iff, hrefs]
  · intro s hs q hq r hr
    rw [mem_findOrphanedStems_iff, hrefs]
    rintro ⟨-, hnot⟩
    apply hnot
    rw [List.mem_flatMap]
    refine ⟨s, hs, ?_⟩
    rw [List.mem_filterMap]
    exact ⟨q, hq, hr⟩
  · rw [List.eq_nil_iff_forall_not_mem]
    intro p hp
    rw [mem_findOrphanedStems_iff] at hp
    obtain ⟨hlist, hnref⟩ := hp
    obtain ⟨sd, f, i, hpshape, hwav, hsd, hht, hfile⟩ :=
      listAllStemFiles_mem_elim root _ p hlist
    rw [cleanup_files_eq] at hfile
    have hfile2 := List.mem_filter.mp hfile
    have hnotorph : ¬ p ∈ findOrphanedStems root fs estado := by
      have h2 := hfile2.2
      simp only [decide_not, Bool.not_eq_true', decide_eq_false_iff_not] at h2
      intro hc
      exact h2 (List.elem_iff.mpr hc)
    apply hnotorph
    rw [mem_findOrphanedStems_iff]
    refine ⟨?_, hnref⟩
    rw [hpshape]
    exact listAllStemFiles_mem_intro root fs sd f i
      (cleanup_dirs_subset root fs estado _ hht)
      (cleanup_dirs_subset root fs estado _ hsd)
      (hpshape ▸ hfile2.1) hwav

/-- C8, witness. On the concrete scenario, the referenced path is not
orphaned and a cleanup followed by orphan discovery finds nothing. -/
theorem C8_orphans_set_difference_witness :
    (¬ (["outputs_remix", "htdemucs", "a", "vocals.wav"] : Path) ∈
      findOrphanedStems outputFolder c8Fs c8Estado) ∧
    findOrphanedStems outputFolder
      ((cleanupOrphanedStems outputFolder c8Fs c8Estado).2.2) c8Estado = [] :=
  ⟨(C8_orphans_set_difference outputFolder c8Fs c8Estado (by decide)).2.1
      c8Song (by decide) c8Pista (by decide)
      ["outputs_remix", "htdemucs", "a", "vocals.wav"] (by decide),
    (C8_orphans_set_difference outputFolder c8Fs c8Estado (by decide)).2.2⟩

/-- C10. Every path orphan discovery can report lies strictly under the
`htdemucs` subdirectory of the output root, inside a per-song subdirectory,
and carries a `.wav` suffix; the paths cleanup deletes are exactly the
reported orphans; and any file whose path is not of that per-song stem shape
(uploaded sources, final mixes, AI-generated stems at the output root)
survives cleanup untouched. -/
theorem C10_cleanup_scope (root : Path) (fs : Fs) (estado : List SongRec) :
    (∀ p ∈ findOrphanedStems root fs estado,
      ∃ sd f, p = root ++ ["htdemucs", sd, f] ∧
        strEndsWith f (".wav") = true) ∧
    (cleanupOrphanedStems root fs estado).2.1 =
      findOrphanedStems root fs estado ∧
    (∀ e ∈ fs.files, (∀ sd f, e.1 ≠ root ++ ["htdemucs", sd, f]) →
      e ∈ ((cleanupOrphanedStems root fs estado).2.2).files) := by
  have hshape : ∀ p ∈ findOrphanedStems root fs estado,
      ∃ sd f, p = root ++ ["htdemucs", sd, f] ∧
        strEndsWith f (".wav") = true := by
    intro p hp
    rw [mem_findOrphanedStems_iff] at hp
    obtain ⟨sd, f, i, hpshape, hwav, -, -, -⟩ :=
      listAllStemFiles_mem_elim root fs p hp.1
    exact ⟨sd, f, hpshape, hwav⟩
  refine ⟨hshape, cleanup_deleted_eq root fs estado, ?_⟩
  intro e he hnshape
  rw [cleanup_files_eq]
  rw [List.mem_filter]
  refine ⟨he, ?_⟩
  simp only [decide_not, Bool.not_eq_true', decide_eq_false_iff_not]
  intro hc
  obtain ⟨sd, f, hpshape, -⟩ := hshape e.1 (List.elem_iff.mp hc)
  exact hnshape sd f hpshape

/-- C10, witness. On the concrete C8 scenario: a reported orphan has the
per-song `.wav` shape, and the root-level final mix survives cleanup. -/
theorem C10_cleanup_scope_witness :
    (∃ sd f, (["outputs_remix", "htdemucs", "b", "other.wav"] : Path) =
      outputFolder ++ ["htdemucs", sd, f] ∧
      strEndsWith f (".wav") = true) ∧
    ((["outputs_remix", "mix.wav"] : Path),
      ({ size := 9000, digest := 0 } : FileInfo)) ∈
      ((cleanupOrphanedStems outputFolder c8Fs c8Estado).2.2).files :=
  ⟨(C10_cleanup_scope outputFolder c8Fs c8Estado).1
      ["outputs_remix", "htdemucs", "b", "other.wav"] (by decide),
    (C10_cleanup_scope outputFolder c8Fs c8Estado).2.2
      (["outputs_remix", "mix.wav"], { size := 9000, digest := 0 })
      (by decide)
      (by
        intro sd f h
        have h2 := congrArg List.length h
        simp [outputFolder] at h2)⟩

end Remix

